import Mathlib

/-!
Shallow embedding of `amenzhinsky/systemd-slack` (Go): the units watcher in
`src/systemd/systemd.go` and its caller in `src/main.go`.

The embedding mirrors the source:

* `UnitStatus` embeds the fields of `dbus.UnitStatus` (the listing record).
* `Unit` wraps a `UnitStatus`, as the Go `Unit` struct embeds `dbus.UnitStatus`,
  and `Unit.isEqual` is field-wise equality, as Go `==` on the struct.
* The Go `map[string]Unit` held in `Systemd.state` is embedded as an
  association list with Go-map lookup/assign/delete semantics
  (`lookupSnap`, `insertSnap`); iteration order is fixed to list order
  (a deterministic choice for Go's unspecified map order).
* One iteration of the infinite `for` loop inside `Systemd.Next` is
  `cycle`: the update/report pass over the fetched units (`processUnits`,
  lines 94-128), the deletion pass over the held state (`removeAbsent`,
  lines 130-141), and the flush flag.  The two `logf` calls are the only
  emissions the loop performs; they are recorded as `LogEvent`s.
* `next` runs `Systemd.Next` against a finite trace of environments, each
  giving the result of `conn.ListUnits()` and whether `sd.store()` would
  succeed.  `Next` in the source returns only via `return nil, err`; the
  value handed back to the caller is recorded in `NextOut.returned`.
* `load` / `store` model `Systemd.load` / `Systemd.store`.  The state file
  content is a token stream (`Blob`); `encodeSnap` / `decodeSnap` model the
  gob-inside-gzip encoding: self-describing, field-exact, and decoded as a
  prefix (gob reads exactly one value and ignores trailing bytes).
  `store` opens with `O_CREATE|O_WRONLY` and no `O_TRUNC` (line 186), so it
  overwrites from offset 0 without truncating: old content longer than the
  new encoding survives past it.
-/

namespace SystemdSlack

/-- The fields of `dbus.UnitStatus` (coreos/go-systemd): eight strings
(`ObjectPath` is a string type) and a `uint32` job id, embedded as `Nat`
since no arithmetic is performed on it. -/
structure UnitStatus where
  name : String
  description : String
  loadState : String
  activeState : String
  subState : String
  followed : String
  path : String
  jobId : Nat
  jobType : String
  jobPath : String
deriving DecidableEq, Repr

/-- Go `type Unit struct { dbus.UnitStatus }` (systemd.go line 212). -/
structure Unit where
  status : UnitStatus
deriving DecidableEq, Repr

/-- `Unit.isEqual` (systemd.go line 217): Go struct equality `u.UnitStatus == u2`. -/
def Unit.isEqual (u : Unit) (u2 : UnitStatus) : Bool :=
  decide (u.status = u2)

/-- The in-memory snapshot `sd.state : map[string]Unit`, embedded as an
association list keyed by `string(s.Path)`. -/
abbrev Snap := List (String × Unit)

/-- Go map read `sd.state[path]`: the first entry with the given key. -/
def lookupSnap : Snap → String → Option Unit
  | [], _ => none
  | (k, u) :: rest, key => if k = key then some u else lookupSnap rest key

/-- Go map assignment `sd.state[path] = u`: replace the binding if the key is
present, append it otherwise. -/
def insertSnap : Snap → String → Unit → Snap
  | [], key, u => [(key, u)]
  | (k, v) :: rest, key, u =>
    if k = key then (key, u) :: rest else (k, v) :: insertSnap rest key u

/-- The two log emissions of the loop body: the status line of an added or
changed unit (line 127) and the `"%s deleted"` line of a removed one
(line 140).  The record carried is the one the source formats. -/
inductive LogEvent where
  | status (s : UnitStatus)
  | deleted (s : UnitStatus)
deriving DecidableEq, Repr

/-- The key a log event concerns: the `Path` of the carried record. -/
def LogEvent.path : LogEvent → String
  | .status s => s.path
  | .deleted s => s.path

/-- Whether the held state already has an up-to-date entry for `s`:
`unit, ok := sd.state[string(s.Path)]; ok && unit.isEqual(s)` (line 96). -/
def isCur (st : Snap) (s : UnitStatus) : Bool :=
  match lookupSnap st s.path with
  | some u => u.isEqual s
  | none => false

/-- First pass of the loop body (lines 95-128): for each fetched unit, skip it
when the state already holds an equal record, otherwise set `flush`, write the
record into the state, and log the status line unless `sd.bootstrap && first`
(`sup`) suppresses it.  Returns (new state, emitted events, flush). -/
def processUnits (st : Snap) (sup : Bool) : List UnitStatus → Snap × List LogEvent × Bool
  | [] => (st, [], false)
  | s :: rest =>
    match lookupSnap st s.path with
    | some u =>
      if u.isEqual s then
        processUnits st sup rest
      else
        let out := processUnits (insertSnap st s.path ⟨s⟩) sup rest
        (out.1, (if sup then out.2.1 else .status s :: out.2.1), true)
    | none =>
      let out := processUnits (insertSnap st s.path ⟨s⟩) sup rest
      (out.1, (if sup then out.2.1 else .status s :: out.2.1), true)

/-- Second pass of the loop body (`Loop:`, lines 130-141): every state entry
whose key matches no fetched unit's `Path` is deleted, sets `flush`, and logs
the deletion.  Deletion suppression is never applied. -/
def removeAbsent (st : Snap) (units : List UnitStatus) : Snap × List LogEvent × Bool :=
  match st with
  | [] => ([], [], false)
  | (k, u) :: rest =>
    let out := removeAbsent rest units
    if units.any (fun s => decide (s.path = k)) then
      ((k, u) :: out.1, out.2.1, out.2.2)
    else
      (out.1, .deleted u.status :: out.2.1, true)

/-- Result of one iteration of the loop inside `Next`. -/
structure CycleOut where
  snap : Snap
  events : List LogEvent
  flush : Bool
deriving DecidableEq, Repr

/-- One full iteration of the `for` loop in `Systemd.Next` (lines 94-141),
given the held state, the `sd.bootstrap` field, the local `first` flag, and
the listing returned by `conn.ListUnits()`. -/
def cycle (st : Snap) (bootstrap first : Bool) (units : List UnitStatus) : CycleOut :=
  let p := processUnits st (bootstrap && first) units
  let r := removeAbsent p.1 units
  ⟨r.1, p.2.1 ++ r.2.1, p.2.2 || r.2.2⟩

/-! ## Persistence: `Systemd.load` and `Systemd.store` -/

/-- A token of the serialized state file.  The stream written by
`gob.NewEncoder(gzip.NewWriter(f)).Encode(sd.state)` is modelled at the
granularity gob itself works at: length-prefixed values, strings and
unsigned integers carried exactly. -/
inductive Tok where
  | nat (n : Nat)
  | str (s : String)
deriving DecidableEq, Repr

/-- The byte content of the state file. -/
abbrev Blob := List Tok

/-- gob encoding of one `Unit` value: its ten `dbus.UnitStatus` fields in
declaration order, each carried exactly. -/
def encodeUnit (u : Unit) : Blob :=
  [.str u.status.name, .str u.status.description, .str u.status.loadState,
   .str u.status.activeState, .str u.status.subState, .str u.status.followed,
   .str u.status.path, .nat u.status.jobId, .str u.status.jobType,
   .str u.status.jobPath]

/-- gob encoding of the `map[string]Unit`: entry count, then each key
followed by its value's fields. -/
def encodeSnap (st : Snap) : Blob :=
  .nat st.length :: st.flatMap (fun e => .str e.1 :: encodeUnit e.2)

/-- Decode one `Unit` value from the front of the stream, returning the rest. -/
def decodeUnit : Blob → Option (Unit × Blob)
  | .str n :: .str d :: .str ls :: .str as :: .str ss :: .str fo :: .str p ::
      .nat ji :: .str jt :: .str jp :: rest =>
      some (⟨⟨n, d, ls, as, ss, fo, p, ji, jt, jp⟩⟩, rest)
  | _ => none

/-- Decode `n` map entries from the front of the stream. -/
def decodeEntries : Nat → Blob → Option (Snap × Blob)
  | 0, rest => some ([], rest)
  | n + 1, .str k :: rest =>
    match decodeUnit rest with
    | some (u, rest') =>
      match decodeEntries n rest' with
      | some (st, rest'') => some ((k, u) :: st, rest'')
      | none => none
    | none => none
  | _ + 1, _ => none

/-- `gob.NewDecoder(r).Decode(&sd.state)`: reads exactly one map value from
the front of the stream; bytes past that value are never consumed.  Fails on
any stream that does not start with a well-formed encoded map. -/
def decodeSnap (b : Blob) : Option Snap :=
  match b with
  | .nat n :: rest => (decodeEntries n rest).map (fun p => p.1)
  | _ => none

/-- The errors `load` and the watch loop surface, named as in the spec. -/
inductive LoadErr where
  | stateCorrupt
deriving DecidableEq, Repr

/-- `Systemd.load` (lines 154-182) on a state file whose content is `fs`
(`none` = the file does not exist).  Returns the loaded state and the
`bootstrap` flag: a missing file enables bootstrap and leaves the state
empty; a zero-length file leaves both alone; otherwise the content must
decode, and a decode failure is returned as an error. -/
def load (fs : Option Blob) : Except LoadErr (Snap × Bool) :=
  match fs with
  | none => .ok ([], true)
  | some b =>
    if b = [] then .ok ([], false)
    else
      match decodeSnap b with
      | some st => .ok (st, false)
      | none => .error .stateCorrupt

/-- `Systemd.store` (lines 185-196): the file is opened with
`O_CREATE|O_WRONLY` and written from offset 0.  Without `O_TRUNC`, previous
content longer than the new encoding keeps its tail. -/
def store (fs : Option Blob) (st : Snap) : Blob :=
  let enc := encodeSnap st
  match fs with
  | none => enc
  | some old => enc ++ old.drop enc.length

/-! ## The `Next` loop against an environment trace -/

/-- What the environment does in one loop iteration: the result of
`conn.ListUnits()` (an error is carried as a message string), and whether the
`sd.store()` write would succeed. -/
structure CycleEnv where
  listResult : Except String (List UnitStatus)
  storeOk : Bool

/-- The two ways `Next` returns (both via `return nil, err`). -/
inductive NextErr where
  | listFailed (e : String)
  | storeFailed
deriving DecidableEq, Repr

/-- The fields of `Systemd` the loop reads and writes. -/
structure Systemd where
  state : Snap
  bootstrap : Bool
deriving DecidableEq, Repr

/-- Observable outcome of running `Systemd.Next` against a finite trace:
the final held state and bootstrap flag, the event batch each completed
iteration logged, the snapshots successfully written to disk, the slice
value returned to the caller (the source returns only `nil`), and how the
call ended (`none` = the trace ran out with the loop still running). -/
structure NextOut where
  state : Snap
  bootstrap : Bool
  batches : List (List LogEvent)
  writes : List Snap
  returned : Option (List Unit)
  result : Option NextErr
deriving DecidableEq, Repr

/-- `Systemd.Next` (lines 85-151) run against the trace: `first` starts
`true` and is set `false` after every iteration; a listing error returns
`(nil, err)` at once; after the two passes, `flush` triggers `sd.store()`,
whose failure also returns `(nil, err)`; otherwise the loop continues with
the next environment. -/
def next (sd : Systemd) (first : Bool) : List CycleEnv → NextOut
  | [] => ⟨sd.state, sd.bootstrap, [], [], none, none⟩
  | env :: rest =>
    match env.listResult with
    | .error e => ⟨sd.state, sd.bootstrap, [], [], none, some (.listFailed e)⟩
    | .ok units =>
      let c := cycle sd.state sd.bootstrap first units
      if c.flush && !env.storeOk then
        ⟨c.snap, sd.bootstrap, [c.events], [], none, some .storeFailed⟩
      else
        let out := next ⟨c.snap, sd.bootstrap⟩ false rest
        ⟨out.state, out.bootstrap, c.events :: out.batches,
         (if c.flush then [c.snap] else []) ++ out.writes, out.returned, out.result⟩

/-! ## The spec's differ, for comparison with the loop's emissions -/

/-- The transition kinds the spec's data model distinguishes. -/
inductive TrKind where
  | added
  | changed
  | removed
deriving DecidableEq, Repr

/-- The spec's Transition: a kind and the associated record. -/
structure Transition where
  kind : TrKind
  unit : UnitStatus
deriving DecidableEq, Repr

/-- The Snapshot Differ as the spec's section 4.2 words it (this definition
follows the spec, not the source, so that the loop's emissions can be
compared against it): one Added transition per current record whose key is
absent from the previous snapshot, one Changed transition per key present
with differing fields, nothing for an equal pair, then one Removed
transition per previous key absent from the listing; the next snapshot keys
exactly the current records. -/
def specDiff (P : Snap) (C : List UnitStatus) : Snap × List Transition :=
  let addedChanged := C.filterMap (fun c =>
    match lookupSnap P c.path with
    | none => some ⟨.added, c⟩
    | some u => if u.status = c then none else some ⟨.changed, c⟩)
  let removed := (P.filter (fun e => C.all (fun c => decide (c.path ≠ e.1)))).map
    (fun e => Transition.mk .removed e.2.status)
  (C.map (fun c => (c.path, Unit.mk c)), addedChanged ++ removed)

/-! ## Concrete sample records -/

/-- A sample unit, as `ListUnits` would report it. -/
def uA : UnitStatus :=
  ⟨"a.service", "service A", "loaded", "active", "running", "", "/org/a", 0, "", ""⟩

/-- The same unit as `uA` after a status change (differing fields, same path). -/
def uA2 : UnitStatus :=
  ⟨"a.service", "service A", "loaded", "failed", "failed", "", "/org/a", 0, "", ""⟩

/-- A second sample unit with a distinct path. -/
def uB : UnitStatus :=
  ⟨"b.service", "service B", "loaded", "active", "running", "", "/org/b", 0, "", ""⟩

/-- Whether some fetched unit has path `k`: the membership test the deletion
pass performs (line 132-135). -/
def hasPath (units : List UnitStatus) (k : String) : Bool :=
  units.any (fun s => decide (s.path = k))

/-! ## Map lemmas -/

theorem lookup_insert (st : Snap) (k : String) (u : Unit) (k' : String) :
    lookupSnap (insertSnap st k u) k' = if k' = k then some u else lookupSnap st k' := by
  induction st with
  | nil =>
    by_cases h : k' = k
    · simp [insertSnap, lookupSnap, h]
    · simp [insertSnap, lookupSnap, h, Ne.symm h]
  | cons e rest ih =>
    obtain ⟨ke, ue⟩ := e
    by_cases hk : ke = k
    · subst hk
      by_cases h : k' = ke
      · simp [insertSnap, lookupSnap, h]
      · simp [insertSnap, lookupSnap, h, Ne.symm h]
    · by_cases h : ke = k'
      · subst h
        simp [insertSnap, lookupSnap, hk]
      · simp [insertSnap, lookupSnap, hk, h, ih]

theorem insert_of_lookup_none (st : Snap) (k : String) (u : Unit)
    (h : lookupSnap st k = none) : insertSnap st k u = st ++ [(k, u)] := by
  induction st with
  | nil => simp [insertSnap]
  | cons e rest ih =>
    obtain ⟨ke, ue⟩ := e
    by_cases hk : ke = k
    · simp [lookupSnap, hk] at h
    · simp [lookupSnap, hk] at h
      simp [insertSnap, hk, ih h]

theorem lookup_filter_key (st : Snap) (p : String → Bool) (k : String) :
    lookupSnap (st.filter (fun e => p e.1)) k =
      if p k then lookupSnap st k else none := by
  induction st with
  | nil => simp [lookupSnap]
  | cons e rest ih =>
    obtain ⟨ke, ue⟩ := e
    by_cases hk : ke = k
    · subst hk
      by_cases hp : p ke <;> simp [List.filter_cons, hp, lookupSnap, ih]
    · by_cases hp : p ke <;> simp [List.filter_cons, hp, lookupSnap, hk, ih]

/-! ## Characterizing the update/report pass -/

theorem processUnits_cons_skip (st : Snap) (sup : Bool) (c : UnitStatus)
    (tl : List UnitStatus) (u : Unit) (hl : lookupSnap st c.path = some u)
    (he : u.isEqual c = true) :
    processUnits st sup (c :: tl) = processUnits st sup tl := by
  conv_lhs => unfold processUnits
  rw [hl]
  simp [he]

theorem processUnits_cons_upd (st : Snap) (sup : Bool) (c : UnitStatus)
    (tl : List UnitStatus) (u : Unit) (hl : lookupSnap st c.path = some u)
    (he : u.isEqual c = false) :
    processUnits st sup (c :: tl) =
      ((processUnits (insertSnap st c.path ⟨c⟩) sup tl).1,
       (if sup then (processUnits (insertSnap st c.path ⟨c⟩) sup tl).2.1
        else .status c :: (processUnits (insertSnap st c.path ⟨c⟩) sup tl).2.1),
       true) := by
  conv_lhs => unfold processUnits
  rw [hl]
  simp [he]

theorem processUnits_cons_new (st : Snap) (sup : Bool) (c : UnitStatus)
    (tl : List UnitStatus) (hl : lookupSnap st c.path = none) :
    processUnits st sup (c :: tl) =
      ((processUnits (insertSnap st c.path ⟨c⟩) sup tl).1,
       (if sup then (processUnits (insertSnap st c.path ⟨c⟩) sup tl).2.1
        else .status c :: (processUnits (insertSnap st c.path ⟨c⟩) sup tl).2.1),
       true) := by
  conv_lhs => unfold processUnits
  rw [hl]

theorem processUnits_fst_lookup_notmem (C : List UnitStatus) (st : Snap) (sup : Bool)
    (k : String) (h : ∀ x ∈ C, x.path ≠ k) :
    lookupSnap (processUnits st sup C).1 k = lookupSnap st k := by
  induction C generalizing st with
  | nil => simp [processUnits]
  | cons c tl ih =>
    have hck : c.path ≠ k := h c (List.mem_cons_self c tl)
    have htl : ∀ x ∈ tl, x.path ≠ k := fun x hx => h x (List.mem_cons_of_mem c hx)
    cases hl : lookupSnap st c.path with
    | some u =>
      by_cases he : u.isEqual c
      · rw [processUnits_cons_skip st sup c tl u hl he, ih st htl]
      · rw [processUnits_cons_upd st sup c tl u hl (by simpa using he)]
        rw [show (((processUnits (insertSnap st c.path ⟨c⟩) sup tl).1,
              (if sup then (processUnits (insertSnap st c.path ⟨c⟩) sup tl).2.1
               else .status c :: (processUnits (insertSnap st c.path ⟨c⟩) sup tl).2.1),
              true) : Snap × List LogEvent × Bool).1 =
            (processUnits (insertSnap st c.path ⟨c⟩) sup tl).1 from rfl]
        rw [ih _ htl, lookup_insert]
        simp [Ne.symm hck]
    | none =>
      rw [processUnits_cons_new st sup c tl hl]
      rw [show (((processUnits (insertSnap st c.path ⟨c⟩) sup tl).1,
            (if sup then (processUnits (insertSnap st c.path ⟨c⟩) sup tl).2.1
             else .status c :: (processUnits (insertSnap st c.path ⟨c⟩) sup tl).2.1),
            true) : Snap × List LogEvent × Bool).1 =
          (processUnits (insertSnap st c.path ⟨c⟩) sup tl).1 from rfl]
      rw [ih _ htl, lookup_insert]
      simp [Ne.symm hck]

theorem processUnits_fst_lookup_mem (C : List UnitStatus) (st : Snap) (sup : Bool)
    (hnd : (C.map (fun s => s.path)).Nodup) (s : UnitStatus) (hs : s ∈ C) :
    lookupSnap (processUnits st sup C).1 s.path = some ⟨s⟩ := by
  induction C generalizing st with
  | nil => cases hs
  | cons c tl ih =>
    rw [List.map_cons, List.nodup_cons] at hnd
    obtain ⟨hcn, hndtl⟩ := hnd
    rcases List.mem_cons.mp hs with rfl | hs'
    · -- the head unit: the tail never touches its key
      have htl : ∀ x ∈ tl, x.path ≠ s.path := by
        intro x hx hxe
        exact hcn (hxe ▸ List.mem_map_of_mem (fun y => y.path) hx)
      cases hl : lookupSnap st s.path with
      | some u =>
        by_cases he : u.isEqual s
        · have hu : u = ⟨s⟩ := by
            cases u
            simpa [Unit.isEqual] using he
          rw [processUnits_cons_skip st sup s tl u hl he,
            processUnits_fst_lookup_notmem tl st sup s.path htl, hl, hu]
        · rw [processUnits_cons_upd st sup s tl u hl (by simpa using he)]
          show lookupSnap (processUnits (insertSnap st s.path ⟨s⟩) sup tl).1 s.path = _
          rw [processUnits_fst_lookup_notmem tl _ sup s.path htl, lookup_insert]
          simp
      | none =>
        rw [processUnits_cons_new st sup s tl hl]
        show lookupSnap (processUnits (insertSnap st s.path ⟨s⟩) sup tl).1 s.path = _
        rw [processUnits_fst_lookup_notmem tl _ sup s.path htl, lookup_insert]
        simp
    · -- in the tail: whatever the head did to the state, recurse
      cases hl : lookupSnap st c.path with
      | some u =>
        by_cases he : u.isEqual c
        · rw [processUnits_cons_skip st sup c tl u hl he, ih st hndtl hs']
        · rw [processUnits_cons_upd st sup c tl u hl (by simpa using he)]
          exact ih _ hndtl hs'
      | none =>
        rw [processUnits_cons_new st sup c tl hl]
        exact ih _ hndtl hs'

theorem processUnits_events_sup (C : List UnitStatus) (st : Snap) :
    (processUnits st true C).2.1 = [] := by
  induction C generalizing st with
  | nil => simp [processUnits]
  | cons c tl ih =>
    cases hl : lookupSnap st c.path with
    | some u =>
      by_cases he : u.isEqual c
      · rw [processUnits_cons_skip st true c tl u hl he, ih st]
      · rw [processUnits_cons_upd st true c tl u hl (by simpa using he)]
        simpa using ih _
    | none =>
      rw [processUnits_cons_new st true c tl hl]
      simpa using ih _

theorem processUnits_events_false (C : List UnitStatus) (st : Snap)
    (hnd : (C.map (fun s => s.path)).Nodup) :
    (processUnits st false C).2.1 =
      (C.filter (fun s => !(isCur st s))).map .status := by
  induction C generalizing st with
  | nil => simp [processUnits]
  | cons c tl ih =>
    rw [List.map_cons, List.nodup_cons] at hnd
    obtain ⟨hcn, hndtl⟩ := hnd
    have htl : ∀ x ∈ tl, (fun s => !(isCur (insertSnap st c.path ⟨c⟩) s)) x =
        (fun s => !(isCur st s)) x := by
      intro x hx
      have hxc : x.path ≠ c.path := by
        intro hxe
        exact hcn (hxe ▸ List.mem_map_of_mem (fun y => y.path) hx)
      simp [isCur, lookup_insert, hxc]
    cases hl : lookupSnap st c.path with
    | some u =>
      by_cases he : u.isEqual c
      · have hc : isCur st c = true := by simp [isCur, hl, he]
        rw [processUnits_cons_skip st false c tl u hl he, ih st hndtl,
          List.filter_cons]
        simp [hc]
      · have hc : isCur st c = false := by simp [isCur, hl, he]
        rw [processUnits_cons_upd st false c tl u hl (by simpa using he)]
        show LogEvent.status c :: (processUnits (insertSnap st c.path ⟨c⟩) false tl).2.1 = _
        rw [ih _ hndtl, List.filter_congr htl, List.filter_cons]
        simp [hc]
    | none =>
      have hc : isCur st c = false := by simp [isCur, hl]
      rw [processUnits_cons_new st false c tl hl]
      show LogEvent.status c :: (processUnits (insertSnap st c.path ⟨c⟩) false tl).2.1 = _
      rw [ih _ hndtl, List.filter_congr htl, List.filter_cons]
      simp [hc]

theorem processUnits_noop (C : List UnitStatus) (st : Snap) (sup : Bool)
    (h : ∀ s ∈ C, isCur st s = true) :
    processUnits st sup C = (st, [], false) := by
  induction C with
  | nil => simp [processUnits]
  | cons c tl ih =>
    have hc := h c (List.mem_cons_self c tl)
    cases hl : lookupSnap st c.path with
    | some u =>
      have he : u.isEqual c = true := by
        simpa [isCur, hl] using hc
      rw [processUnits_cons_skip st sup c tl u hl he]
      exact ih (fun x hx => h x (List.mem_cons_of_mem c hx))
    | none => simp [isCur, hl] at hc

theorem filter_insert_not (st : Snap) (k : String) (u : Unit) (p : String → Bool)
    (hp : p k = true) :
    (insertSnap st k u).filter (fun e => !(p e.1)) = st.filter (fun e => !(p e.1)) := by
  induction st with
  | nil => simp [insertSnap, List.filter_cons, hp]
  | cons e rest ih =>
    obtain ⟨ke, ue⟩ := e
    by_cases hk : ke = k
    · subst hk
      simp [insertSnap, List.filter_cons, hp]
    · simp [insertSnap, hk, List.filter_cons, ih]

theorem processUnits_fst_filter_not (C : List UnitStatus) (st : Snap) (sup : Bool)
    (p : String → Bool) (hp : ∀ s ∈ C, p s.path = true) :
    ((processUnits st sup C).1).filter (fun e => !(p e.1)) =
      st.filter (fun e => !(p e.1)) := by
  induction C generalizing st with
  | nil => simp [processUnits]
  | cons c tl ih =>
    have hc := hp c (List.mem_cons_self c tl)
    have htl : ∀ x ∈ tl, p x.path = true := fun x hx => hp x (List.mem_cons_of_mem c hx)
    cases hl : lookupSnap st c.path with
    | some u =>
      by_cases he : u.isEqual c
      · rw [processUnits_cons_skip st sup c tl u hl he, ih st htl]
      · rw [processUnits_cons_upd st sup c tl u hl (by simpa using he)]
        show ((processUnits (insertSnap st c.path ⟨c⟩) sup tl).1).filter _ = _
        rw [ih _ htl, filter_insert_not st c.path ⟨c⟩ p hc]
    | none =>
      rw [processUnits_cons_new st sup c tl hl]
      show ((processUnits (insertSnap st c.path ⟨c⟩) sup tl).1).filter _ = _
      rw [ih _ htl, filter_insert_not st c.path ⟨c⟩ p hc]

theorem processUnits_append_new (C : List UnitStatus) (st : Snap) (sup : Bool)
    (hnd : (C.map (fun s => s.path)).Nodup)
    (h : ∀ s ∈ C, lookupSnap st s.path = none) :
    (processUnits st sup C).1 = st ++ C.map (fun s => (s.path, (⟨s⟩ : Unit))) := by
  induction C generalizing st with
  | nil => simp [processUnits]
  | cons c tl ih =>
    rw [List.map_cons, List.nodup_cons] at hnd
    obtain ⟨hcn, hndtl⟩ := hnd
    have hc := h c (List.mem_cons_self c tl)
    rw [processUnits_cons_new st sup c tl hc]
    show (processUnits (insertSnap st c.path ⟨c⟩) sup tl).1 = _
    have htl : ∀ s ∈ tl, lookupSnap (insertSnap st c.path ⟨c⟩) s.path = none := by
      intro x hx
      have hxc : x.path ≠ c.path := by
        intro hxe
        exact hcn (hxe ▸ List.mem_map_of_mem (fun y => y.path) hx)
      rw [lookup_insert, if_neg hxc]
      exact h x (List.mem_cons_of_mem c hx)
    rw [ih _ hndtl htl, insert_of_lookup_none st c.path ⟨c⟩ hc]
    simp

/-! ## Characterizing the deletion pass -/

theorem removeAbsent_fst (st : Snap) (units : List UnitStatus) :
    (removeAbsent st units).1 = st.filter (fun e => hasPath units e.1) := by
  induction st with
  | nil => simp [removeAbsent]
  | cons e rest ih =>
    obtain ⟨ke, ue⟩ := e
    by_cases hk : units.any (fun s => decide (s.path = ke))
    · simp [removeAbsent, hk, List.filter_cons, hasPath, ih]
    · simp [removeAbsent, hk, List.filter_cons, hasPath, ih]

theorem removeAbsent_events (st : Snap) (units : List UnitStatus) :
    (removeAbsent st units).2.1 =
      (st.filter (fun e => !(hasPath units e.1))).map
        (fun e => LogEvent.deleted e.2.status) := by
  induction st with
  | nil => simp [removeAbsent]
  | cons e rest ih =>
    obtain ⟨ke, ue⟩ := e
    by_cases hk : units.any (fun s => decide (s.path = ke))
    · simp [removeAbsent, hk, List.filter_cons, hasPath, ih]
    · simp [removeAbsent, hk, List.filter_cons, hasPath, ih]

theorem removeAbsent_flush (st : Snap) (units : List UnitStatus) :
    (removeAbsent st units).2.2 = st.any (fun e => !(hasPath units e.1)) := by
  induction st with
  | nil => simp [removeAbsent]
  | cons e rest ih =>
    obtain ⟨ke, ue⟩ := e
    by_cases hk : units.any (fun s => decide (s.path = ke))
    · simp [removeAbsent, hk, hasPath, ih]
    · simp [removeAbsent, hk, hasPath, ih]

/-! ## Cycle-level lemmas -/

theorem cycle_sup_eq (st : Snap) (b f b' f' : Bool) (C : List UnitStatus)
    (h : (b && f) = (b' && f')) : cycle st b f C = cycle st b' f' C := by
  unfold cycle
  rw [h]

theorem cycle_snap_lookup_mem (st : Snap) (b f : Bool) (C : List UnitStatus)
    (hnd : (C.map (fun s => s.path)).Nodup) (s : UnitStatus) (hs : s ∈ C) :
    lookupSnap (cycle st b f C).snap s.path = some ⟨s⟩ := by
  have hp : hasPath C s.path = true := by
    simp [hasPath]
    exact ⟨s, hs, rfl⟩
  unfold cycle
  simp only [removeAbsent_fst]
  rw [lookup_filter_key _ (hasPath C) s.path, if_pos hp,
    processUnits_fst_lookup_mem C st (b && f) hnd s hs]

theorem cycle_snap_keys (st : Snap) (b f : Bool) (C : List UnitStatus) :
    ∀ e ∈ (cycle st b f C).snap, hasPath C e.1 = true := by
  intro e he
  unfold cycle at he
  simp only [removeAbsent_fst] at he
  exact (List.mem_filter.mp he).2

theorem cycle_noop (post : Snap) (b' f' : Bool) (C : List UnitStatus)
    (hcur : ∀ s ∈ C, isCur post s = true)
    (hkeys : ∀ e ∈ post, hasPath C e.1 = true) :
    cycle post b' f' C = ⟨post, [], false⟩ := by
  unfold cycle
  rw [processUnits_noop C post (b' && f') hcur]
  simp only [removeAbsent_fst, removeAbsent_events, removeAbsent_flush]
  have h1 : post.filter (fun e => hasPath C e.1) = post := List.filter_eq_self.mpr hkeys
  have h2 : post.filter (fun e => !(hasPath C e.1)) = [] := by
    rw [List.filter_eq_nil_iff.mpr]
    intro e he
    simp [hkeys e he]
  have h3 : post.any (fun e => !(hasPath C e.1)) = false := by
    simp only [List.any_eq_false]
    intro e he
    simp [hkeys e he]
  rw [h1, h2, h3]
  simp

theorem cycle_idem (st : Snap) (b f b' f' : Bool) (C : List UnitStatus)
    (hnd : (C.map (fun s => s.path)).Nodup) :
    cycle (cycle st b f C).snap b' f' C = ⟨(cycle st b f C).snap, [], false⟩ := by
  refine cycle_noop _ b' f' C ?_ (cycle_snap_keys st b f C)
  intro s hs
  simp [isCur, cycle_snap_lookup_mem st b f C hnd s hs, Unit.isEqual]

/-! ## Serialization round trip -/

theorem decodeUnit_encodeUnit (u : Unit) (r : Blob) :
    decodeUnit (encodeUnit u ++ r) = some (u, r) := rfl

theorem decodeEntries_encode (st : Snap) (r : Blob) :
    decodeEntries st.length
      (st.flatMap (fun e => .str e.1 :: encodeUnit e.2) ++ r) = some (st, r) := by
  induction st with
  | nil => simp [decodeEntries]
  | cons e tl ih =>
    obtain ⟨k, u⟩ := e
    simp only [List.flatMap_cons, List.length_cons, List.cons_append,
      List.append_assoc]
    unfold decodeEntries
    rw [decodeUnit_encodeUnit u _]
    simp [ih]

theorem decodeSnap_encodeSnap (st : Snap) (r : Blob) :
    decodeSnap (encodeSnap st ++ r) = some st := by
  simp only [encodeSnap, List.cons_append, decodeSnap]
  rw [decodeEntries_encode st r]
  rfl

theorem store_shape (fs : Option Blob) (st : Snap) :
    ∃ junk, store fs st = encodeSnap st ++ junk := by
  cases fs with
  | none => exact ⟨[], by simp [store]⟩
  | some old => exact ⟨old.drop (encodeSnap st).length, rfl⟩

/-! ## Unique-key helpers -/

theorem filter_key_single {α β : Type} [DecidableEq β] (f : α → β) (l : List α)
    (hnd : (l.map f).Nodup) (a : α) (ha : a ∈ l) (p : α → Bool) :
    l.filter (fun x => p x && decide (f x = f a)) = if p a then [a] else [] := by
  induction l with
  | nil => cases ha
  | cons c tl ih =>
    rw [List.map_cons, List.nodup_cons] at hnd
    obtain ⟨hcn, hndtl⟩ := hnd
    rcases List.mem_cons.mp ha with rfl | ha'
    · have htl : tl.filter (fun x => p x && decide (f x = f a)) = [] := by
        rw [List.filter_eq_nil_iff.mpr]
        intro x hx
        have : f x ≠ f a := by
          intro hxe
          exact hcn (hxe ▸ List.mem_map_of_mem f hx)
        simp [this]
      by_cases hp : p a <;> simp [List.filter_cons, hp, htl]
    · have hca : f c ≠ f a := by
        intro hce
        exact hcn (hce ▸ List.mem_map_of_mem f ha')
      simp only [List.filter_cons, hca, decide_eq_true_eq, if_neg]
      rw [ih hndtl ha']
      simp [hca]

theorem find_key_single {α β : Type} [DecidableEq β] (f : α → β) (l : List α)
    (hnd : (l.map f).Nodup) (a : α) (ha : a ∈ l) :
    l.find? (fun x => decide (f x = f a)) = some a := by
  induction l with
  | nil => cases ha
  | cons c tl ih =>
    rw [List.map_cons, List.nodup_cons] at hnd
    obtain ⟨hcn, hndtl⟩ := hnd
    rcases List.mem_cons.mp ha with rfl | ha'
    · simp [List.find?_cons]
    · have hca : f c ≠ f a := by
        intro hce
        exact hcn (hce ▸ List.mem_map_of_mem f ha')
      have hdec : (decide (f c = f a)) = false := by simp [hca]
      rw [List.find?_cons, hdec]
      exact ih hndtl ha'

/-! ## `Next` always returns a nil slice -/

theorem next_returned_none (tr : List CycleEnv) :
    ∀ (sd : Systemd) (first : Bool), (next sd first tr).returned = none := by
  induction tr with
  | nil => intro sd first; rfl
  | cons env rest ih =>
    intro sd first
    unfold next
    cases env.listResult with
    | error e => rfl
    | ok units =>
      by_cases hf : (cycle sd.state sd.bootstrap first units).flush && !env.storeOk
      · simp [hf]
      · simp [hf, ih]

/-! ## Claim theorems -/

/-- C4: `load` on a missing state file returns an empty snapshot with
bootstrap enabled and no error; `load` on an existing zero-length file
returns an empty snapshot with bootstrap disabled and no error. -/
theorem claim_C4_load_absent_and_empty :
    load none = Except.ok (([] : Snap), true) ∧
    load (some []) = Except.ok (([] : Snap), false) := by
  constructor
  · rfl
  · simp [load]

/-- C5: an existing, non-empty state file whose content fails to decode makes
`load` fail with `StateCorrupt`; it never succeeds with an empty snapshot or
with bootstrap enabled. -/
theorem claim_C5_corrupt_state_fatal (b : Blob) (hne : b ≠ [])
    (hbad : decodeSnap b = none) :
    load (some b) = Except.error LoadErr.stateCorrupt := by
  simp [load, hne, hbad]

/-- Witness for C5: a concrete non-empty, non-decodable file content. -/
theorem claim_C5_witness :
    load (some [Tok.str "garbage"]) = Except.error LoadErr.stateCorrupt :=
  claim_C5_corrupt_state_fatal [Tok.str "garbage"] (by decide) (by decide)

/-- C6 (the code bug, evaluated): `store` opens the state file without
truncation, so storing the empty snapshot (encoding `[nat 0]`) over previous
longer content `[nat 0, nat 7]` leaves the file as `[nat 0, nat 7]` — the
residue `nat 7` survives and the file is not exactly the new encoding,
contrary to the claim. -/
theorem claim_C6_store_leaves_residue :
    store (some [Tok.nat 0, Tok.nat 7]) [] = [Tok.nat 0, Tok.nat 7] ∧
    encodeSnap ([] : Snap) = [Tok.nat 0] ∧
    store (some [Tok.nat 0, Tok.nat 7]) [] ≠ encodeSnap ([] : Snap) := by
  refine ⟨rfl, rfl, ?_⟩
  decide

/-- C7: round trip — storing any snapshot over any previous file content and
loading the file back returns exactly that snapshot, every field intact
(gob decodes one value from the front of the stream, so even the
non-truncated residue does not disturb it). -/
theorem claim_C7_store_load_roundtrip (fs : Option Blob) (S : Snap) :
    load (some (store fs S)) = Except.ok (S, false) := by
  obtain ⟨junk, hj⟩ := store_shape fs S
  have hne : encodeSnap S ++ junk ≠ [] := by simp [encodeSnap]
  rw [hj]
  simp [load, hne, decodeSnap_encodeSnap]

/-- C1 (the code bug, evaluated): a successful poll cycle computes and logs
its transition batch, but `Next` hands nothing to its caller — it does not
return after the cycle (`result = none`: the loop keeps running), and every
return path of `Next` returns a nil slice (`returned = none` for every
state and trace), so the caller never receives any cycle's transitions. -/
theorem claim_C1_next_yields_nothing :
    (next ⟨[], false⟩ true [⟨Except.ok [uA], true⟩]).batches =
      [[LogEvent.status uA]] ∧
    (next ⟨[], false⟩ true [⟨Except.ok [uA], true⟩]).result = none ∧
    ∀ (sd : Systemd) (first : Bool) (tr : List CycleEnv),
      (next sd first tr).returned = none := by
  refine ⟨by decide, by decide, fun sd first tr => next_returned_none tr sd first⟩

/-- C9: a listing error makes `Next` return that same error immediately —
no retry (the rest of the trace is never consulted), no events emitted (the
outage is not reported as removals), nothing written; and a persistence
failure after a flushing cycle likewise returns an error, terminating the
stream. -/
theorem claim_C9_errors_terminate :
    (∀ (sd : Systemd) (first : Bool) (e : String) (sOk : Bool)
       (tr : List CycleEnv),
      next sd first (⟨Except.error e, sOk⟩ :: tr) =
        ⟨sd.state, sd.bootstrap, [], [], none, some (NextErr.listFailed e)⟩) ∧
    (∀ (sd : Systemd) (first : Bool) (C : List UnitStatus) (tr : List CycleEnv),
      (cycle sd.state sd.bootstrap first C).flush = true →
      next sd first (⟨Except.ok C, false⟩ :: tr) =
        ⟨(cycle sd.state sd.bootstrap first C).snap, sd.bootstrap,
         [(cycle sd.state sd.bootstrap first C).events], [], none,
         some NextErr.storeFailed⟩) := by
  constructor
  · intro sd first e sOk tr
    rfl
  · intro sd first C tr hf
    simp [next, hf]

/-- Witness for C9: both failure modes at concrete inputs. -/
theorem claim_C9_witness :
    next ⟨[], false⟩ true [⟨Except.error "boom", true⟩] =
      ⟨[], false, [], [], none, some (NextErr.listFailed "boom")⟩ ∧
    next ⟨[], false⟩ true [⟨Except.ok [uA], false⟩] =
      ⟨[("/org/a", ⟨uA⟩)], false, [[LogEvent.status uA]], [], none,
       some NextErr.storeFailed⟩ := by
  constructor
  · exact claim_C9_errors_terminate.1 ⟨[], false⟩ true "boom" true []
  · exact (claim_C9_errors_terminate.2 ⟨[], false⟩ true [uA] [] (by decide)).trans
      (by decide)

/-- C2: bootstrap suppression — starting from a missing state file (`load`
returns bootstrap mode), the first cycle over a non-empty listing emits no
events and leaves the snapshot holding exactly the listed units, and the
following cycle emits exactly what a steady (non-bootstrap) cycle over that
snapshot emits. -/
theorem claim_C2_bootstrap_suppression (s0 : Snap) (b0 : Bool)
    (hload : load none = Except.ok (s0, b0))
    (C C' : List UnitStatus) (_hne : C ≠ [])
    (hnd : (C.map (fun s => s.path)).Nodup) :
    (next ⟨s0, b0⟩ true [⟨Except.ok C, true⟩]).state =
      C.map (fun s => (s.path, (⟨s⟩ : Unit))) ∧
    (next ⟨s0, b0⟩ true [⟨Except.ok C, true⟩, ⟨Except.ok C', true⟩]).batches =
      [[], (cycle (C.map (fun s => (s.path, (⟨s⟩ : Unit)))) false false C').events] := by
  have hinj : s0 = [] ∧ b0 = true := by
    simp only [load, Except.ok.injEq, Prod.mk.injEq] at hload
    exact ⟨hload.1.symm, hload.2.symm⟩
  obtain ⟨rfl, rfl⟩ := hinj
  have hfst : (processUnits [] (true && true) C).1 =
      C.map (fun s => (s.path, (⟨s⟩ : Unit))) := by
    rw [processUnits_append_new C [] (true && true) hnd (fun s _ => rfl),
      List.nil_append]
  have hkeysall : ∀ e ∈ (processUnits [] (true && true) C).1,
      hasPath C e.1 = true := by
    rw [hfst]
    intro e he
    obtain ⟨s, hs, rfl⟩ := List.mem_map.mp he
    simp only [hasPath, List.any_eq_true]
    exact ⟨s, hs, by simp⟩
  have hsnap1 : (cycle [] true true C).snap =
      C.map (fun s => (s.path, (⟨s⟩ : Unit))) := by
    simp only [cycle, removeAbsent_fst]
    rw [List.filter_eq_self.mpr hkeysall, hfst]
  have hev1 : (cycle [] true true C).events = [] := by
    simp only [cycle, removeAbsent_events]
    rw [show (true && true) = true from rfl, processUnits_events_sup C [],
      List.nil_append, List.filter_eq_nil_iff.mpr, List.map_nil]
    intro e he
    have := hkeysall e (by simpa using he)
    simp [this]
  constructor
  · have hone : (next ⟨[], true⟩ true [⟨Except.ok C, true⟩]).state =
        (cycle [] true true C).snap := by
      simp [next]
    rw [hone, hsnap1]
  · have htwo : (next ⟨[], true⟩ true
        [⟨Except.ok C, true⟩, ⟨Except.ok C', true⟩]).batches =
        [(cycle [] true true C).events,
         (cycle (cycle [] true true C).snap true false C').events] := by
      simp [next]
    rw [htwo, hev1, hsnap1,
      cycle_sup_eq (C.map (fun s => (s.path, (⟨s⟩ : Unit)))) true false false false C' rfl]

/-- Witness for C2: bootstrap over listing `[uA]`, then a steady cycle over
`[uA2, uB]` (A changed, B added) reported normally. -/
theorem claim_C2_witness :
    (next ⟨[], true⟩ true [⟨Except.ok [uA], true⟩]).state = [("/org/a", ⟨uA⟩)] ∧
    (next ⟨[], true⟩ true
      [⟨Except.ok [uA], true⟩, ⟨Except.ok [uA2, uB], true⟩]).batches =
      [[], [LogEvent.status uA2, LogEvent.status uB]] := by
  have h := claim_C2_bootstrap_suppression [] true rfl [uA] [uA2, uB]
    (by decide) (by decide)
  exact ⟨h.1.trans (by decide), h.2.trans (by decide)⟩

/-- C8: two consecutive cycles over an unchanged listing — the second cycle's
batch is empty and the second cycle performs no disk write (the writes are
exactly the first cycle's). -/
theorem claim_C8_noop_second_cycle (sd : Systemd) (first : Bool)
    (C : List UnitStatus) (hnd : (C.map (fun s => s.path)).Nodup) :
    next sd first [⟨Except.ok C, true⟩, ⟨Except.ok C, true⟩] =
      ⟨(cycle sd.state sd.bootstrap first C).snap, sd.bootstrap,
       [(cycle sd.state sd.bootstrap first C).events, []],
       (if (cycle sd.state sd.bootstrap first C).flush
        then [(cycle sd.state sd.bootstrap first C).snap] else []),
       none, none⟩ := by
  have h2 := cycle_idem sd.state sd.bootstrap first sd.bootstrap false C hnd
  simp [next, h2]

/-- Witness for C8: a concrete repeated listing. -/
theorem claim_C8_witness :
    next ⟨[], false⟩ true [⟨Except.ok [uA], true⟩, ⟨Except.ok [uA], true⟩] =
      ⟨[("/org/a", ⟨uA⟩)], false, [[LogEvent.status uA], []],
       [[("/org/a", ⟨uA⟩)]], none, none⟩ :=
  (claim_C8_noop_second_cycle ⟨[], false⟩ true [uA] (by decide)).trans (by decide)

/-- C10: error atomicity of a failed fetch — when the listing call fails
after any run of successful cycles, `Next` returns the error with the held
state, the emitted batches, and the disk writes exactly as the successful
cycles left them: the failing cycle mutates nothing and writes nothing. -/
theorem claim_C10_fetch_failure_atomic (pre : List CycleEnv) :
    ∀ (sd : Systemd) (first : Bool), (next sd first pre).result = none →
    ∀ (e : String) (sOk : Bool) (tr : List CycleEnv),
    next sd first (pre ++ ⟨Except.error e, sOk⟩ :: tr) =
      ⟨(next sd first pre).state, (next sd first pre).bootstrap,
       (next sd first pre).batches, (next sd first pre).writes,
       none, some (NextErr.listFailed e)⟩ := by
  induction pre with
  | nil =>
    intro sd first _ e sOk tr
    rfl
  | cons env rest ih =>
    intro sd first h e sOk tr
    obtain ⟨lr, sOk'⟩ := env
    cases lr with
    | error e' => simp [next] at h
    | ok units =>
      by_cases hf : (cycle sd.state sd.bootstrap first units).flush && !sOk'
      · simp [next, hf] at h
      · simp only [next, hf, if_false, List.cons_append] at h ⊢
        simp only [Bool.not_eq_true] at hf
        simp [next, hf] at h ⊢
        rw [ih ⟨(cycle sd.state sd.bootstrap first units).snap, sd.bootstrap⟩
          false h e sOk tr]
        simp

/-- Witness for C10: one successful cycle, then a failed fetch. -/
theorem claim_C10_witness :
    (next ⟨[], false⟩ true [⟨Except.ok [uA], true⟩]).result = none ∧
    next ⟨[], false⟩ true
      ([⟨Except.ok [uA], true⟩] ++ [⟨Except.error "down", true⟩]) =
      ⟨[("/org/a", ⟨uA⟩)], false, [[LogEvent.status uA]], [[("/org/a", ⟨uA⟩)]],
       none, some (NextErr.listFailed "down")⟩ := by
  refine ⟨rfl, ?_⟩
  exact (claim_C10_fetch_failure_atomic [⟨Except.ok [uA], true⟩] ⟨[], false⟩ true
    rfl "down" true []).trans (by decide)

/-- C3, counterexample to the claim as stated: the spec's differ classifies
the same listing `[uA]` as an Added transition against an empty previous
snapshot and as a Changed transition against a previous snapshot holding a
differing record — but the loop's emissions in the two situations are the
identical event `status uA` (line 127 formats added and changed units
alike), so the transitions the cycle produces do not carry the
Added/Changed distinction the claim asserts. -/
theorem claim_C3_counterexample :
    (specDiff [] [uA]).2 = [⟨TrKind.added, uA⟩] ∧
    (specDiff [("/org/a", ⟨uA2⟩)] [uA]).2 = [⟨TrKind.changed, uA⟩] ∧
    (cycle [] false false [uA]).events =
      (cycle [("/org/a", ⟨uA2⟩)] false false [uA]).events := by
  refine ⟨by decide, by decide, by decide⟩

theorem filter_status_map (l : List UnitStatus) (k : String) :
    ((l.map LogEvent.status).filter (fun ev => decide (ev.path = k))) =
      (l.filter (fun x => decide (x.path = k))).map LogEvent.status := by
  induction l with
  | nil => rfl
  | cons c tl ih =>
    have hpath : (LogEvent.status c).path = c.path := rfl
    simp only [List.map_cons, List.filter_cons, hpath]
    by_cases h : c.path = k
    · simp [h, ih]
    · simp [h, ih]

theorem filter_deleted_map (l : Snap) (k : String) :
    ((l.map (fun e => LogEvent.deleted e.2.status)).filter
        (fun ev => decide (ev.path = k))) =
      (l.filter (fun e => decide (e.2.status.path = k))).map
        (fun e => LogEvent.deleted e.2.status) := by
  induction l with
  | nil => rfl
  | cons c tl ih =>
    have hpath : (LogEvent.deleted c.2.status).path = c.2.status.path := rfl
    simp only [List.map_cons, List.filter_cons, hpath]
    by_cases h : c.2.status.path = k
    · simp [h, ih]
    · simp [h, ih]

/-- C3 as amended: for previous snapshot `P` and listing `C` with distinct
keys (and `P`'s records keyed by their own paths), a steady cycle emits
exactly one `status` event per key of `C` absent from `P` carrying `C`'s
record, exactly one `status` event per key in both with differing fields,
no event for keys in both with identical fields, and exactly one `deleted`
event per key of `P` absent from `C` carrying `P`'s record — removals are
distinguished by the event's constructor, but added and changed units are
emitted identically — and the resulting snapshot maps exactly the keys of
`C` to their records from `C`. -/
theorem claim_C3_cycle_diff (P : Snap) (C : List UnitStatus)
    (hndP : (P.map (fun e => e.1)).Nodup)
    (hndC : (C.map (fun s => s.path)).Nodup)
    (hkeys : ∀ e ∈ P, e.2.status.path = e.1) :
    (∀ s ∈ C, lookupSnap P s.path = none →
      (cycle P false false C).events.filter
        (fun ev => decide (ev.path = s.path)) = [LogEvent.status s]) ∧
    (∀ s ∈ C, ∀ u, lookupSnap P s.path = some u → u.status ≠ s →
      (cycle P false false C).events.filter
        (fun ev => decide (ev.path = s.path)) = [LogEvent.status s]) ∧
    (∀ s ∈ C, lookupSnap P s.path = some ⟨s⟩ →
      (cycle P false false C).events.filter
        (fun ev => decide (ev.path = s.path)) = []) ∧
    (∀ e ∈ P, (∀ s ∈ C, s.path ≠ e.1) →
      (cycle P false false C).events.filter
        (fun ev => decide (ev.path = e.1)) = [LogEvent.deleted e.2.status]) ∧
    (∀ k, lookupSnap (cycle P false false C).snap k =
      (C.find? (fun s => decide (s.path = k))).map Unit.mk) := by
  have hp : ∀ s ∈ C, hasPath C s.path = true := by
    intro s hs
    simp only [hasPath, List.any_eq_true]
    exact ⟨s, hs, by simp⟩
  have hevents : (cycle P false false C).events =
      ((C.filter (fun s => !(isCur P s))).map LogEvent.status) ++
      ((P.filter (fun e => !(hasPath C e.1))).map
        (fun e => LogEvent.deleted e.2.status)) := by
    simp only [cycle, removeAbsent_events, show (false && false) = false from rfl]
    rw [processUnits_events_false C P hndC,
      processUnits_fst_filter_not C P false (hasPath C) hp]
  -- the deletion-pass events never concern a key of the listing
  have hdelC : ∀ s ∈ C,
      ((P.filter (fun e => !(hasPath C e.1))).filter
        (fun e => decide (e.2.status.path = s.path))) = [] := by
    intro s hs
    rw [List.filter_eq_nil_iff]
    intro e he
    obtain ⟨heP, her⟩ := List.mem_filter.mp he
    have hkey := hkeys e heP
    simp only [decide_eq_true_eq]
    intro hep
    have : hasPath C e.1 = true := by
      simp only [hasPath, List.any_eq_true]
      exact ⟨s, hs, by simp [← hkey, hep]⟩
    simp [this] at her
  -- the status-pass filter at a listing key reduces to a single test on it
  have hstat : ∀ s ∈ C,
      ((C.filter (fun x => !(isCur P x))).filter
        (fun x => decide (x.path = s.path))) =
      if !(isCur P s) then [s] else [] := by
    intro s hs
    rw [List.filter_filter,
      show (fun a => decide (a.path = s.path) && !(isCur P a)) =
        (fun a => !(isCur P a) && decide (a.path = s.path)) from
        funext fun a => Bool.and_comm _ _]
    exact filter_key_single (fun x => x.path) C hndC s hs (fun x => !(isCur P x))
  refine ⟨?_, ?_, ?_, ?_, ?_⟩
  · -- added keys
    intro s hs hnone
    have hcur : isCur P s = false := by simp [isCur, hnone]
    rw [hevents, List.filter_append, filter_status_map, filter_deleted_map,
      hstat s hs, hdelC s hs, hcur]
    simp
  · -- changed keys
    intro s hs u hu hne
    have hcur : isCur P s = false := by
      simp [isCur, hu, Unit.isEqual, hne]
    rw [hevents, List.filter_append, filter_status_map, filter_deleted_map,
      hstat s hs, hdelC s hs, hcur]
    simp
  · -- unchanged keys
    intro s hs hu
    have hcur : isCur P s = true := by
      simp [isCur, hu, Unit.isEqual]
    rw [hevents, List.filter_append, filter_status_map, filter_deleted_map,
      hstat s hs, hdelC s hs, hcur]
    simp
  · -- removed keys
    intro e he habs
    have hstatnil : ((C.filter (fun x => !(isCur P x))).filter
        (fun x => decide (x.path = e.1))) = [] := by
      rw [List.filter_eq_nil_iff]
      intro x hx
      have := habs x (List.mem_filter.mp hx).1
      simp [this]
    have hdel : ((P.filter (fun x => !(hasPath C x.1))).filter
        (fun x => decide (x.2.status.path = e.1))) = [e] := by
      have hcongr : ∀ x ∈ P.filter (fun x => !(hasPath C x.1)),
          (decide (x.2.status.path = e.1)) = (decide (x.1 = e.1)) := by
        intro x hx
        rw [hkeys x (List.mem_filter.mp hx).1]
      have hfalse : hasPath C e.1 = false := by
        simp only [hasPath, List.any_eq_false]
        intro s hs
        simp [habs s hs]
      rw [List.filter_congr hcongr, List.filter_filter,
        show (fun (a : String × Unit) => decide (a.1 = e.1) && !(hasPath C a.1)) =
          (fun (a : String × Unit) => !(hasPath C a.1) && decide (a.1 = e.1)) from
          funext fun a => Bool.and_comm _ _,
        filter_key_single (fun x => x.1) P hndP e he
          (fun x => !(hasPath C x.1))]
      simp [hfalse]
    rw [hevents, List.filter_append, filter_status_map, filter_deleted_map,
      hstatnil, hdel]
    simp
  · -- the next snapshot keys exactly the listing
    intro k
    have hsnapC : lookupSnap (cycle P false false C).snap k =
        if hasPath C k then lookupSnap (processUnits P false C).1 k else none := by
      simp only [cycle, removeAbsent_fst, show (false && false) = false from rfl]
      exact lookup_filter_key _ (hasPath C) k
    by_cases hk : hasPath C k = true
    · obtain ⟨s, hs, hsp⟩ : ∃ s ∈ C, s.path = k := by
        simpa [hasPath, List.any_eq_true] using hk
      subst hsp
      rw [hsnapC, if_pos hk, processUnits_fst_lookup_mem C P false hndC s hs,
        find_key_single (fun x => x.path) C hndC s hs]
      rfl
    · have hk' : hasPath C k = false := by simpa using hk
      have hfind : C.find? (fun s => decide (s.path = k)) = none := by
        rw [List.find?_eq_none]
        intro x hx
        simp only [hasPath, List.any_eq_false] at hk'
        simpa using hk' x hx
      rw [hsnapC, if_neg hk, hfind]
      rfl

/-- Witness for C3 as amended: concrete previous snapshot `{A}` and listing
`[A changed, B new]` — one status event per key, keyed lookups as claimed. -/
theorem claim_C3_witness :
    (cycle [("/org/a", ⟨uA⟩)] false false [uA2, uB]).events.filter
      (fun ev => decide (ev.path = uB.path)) = [LogEvent.status uB] ∧
    (cycle [("/org/a", ⟨uA⟩)] false false [uA2, uB]).events.filter
      (fun ev => decide (ev.path = uA2.path)) = [LogEvent.status uA2] ∧
    lookupSnap (cycle [("/org/a", ⟨uA⟩)] false false [uA2, uB]).snap "/org/b" =
      some ⟨uB⟩ := by
  have h := claim_C3_cycle_diff [("/org/a", ⟨uA⟩)] [uA2, uB]
    (by decide) (by decide) (by decide)
  refine ⟨h.1 uB (by decide) (by decide),
    h.2.1 uA2 (by decide) ⟨uA⟩ (by decide) (by decide), ?_⟩
  exact (h.2.2.2.2 "/org/b").trans (by decide)

end SystemdSlack
